import Mathlib

/-!
# promlts: entry point wiring and the series-retrieval core

The first part is a shallow embedding of `cmd/promlts/main.go`: the command
map, the `log.level` flag and the logger built from it, the metrics registry
handed to the selected command, the exit paths of `main`, `interrupt`, and the
HTTP handler registration of `registerProfile` and `registerMetrics`.
Library calls are represented by small data models of what they are given:
a logger is the tree of constructor calls that built it, a registry is the list
of collectors registered on it, a mux is the list of patterns handled so far.

The second part models the query core that the specification describes and
whose code lies outside `cmd/promlts/main.go`: fan-out pruning, the k-way
label merge with replica grouping, and the sample dedup walk.
-/

namespace Promlts

/-! ## go-kit/log and go-kit/log/level -/

/-- The four `level.Option` values `main` can select. -/
inductive LevelOption
  | AllowError
  | AllowWarn
  | AllowInfo
  | AllowDebug
deriving DecidableEq, Repr

/-- The two value producers `main` binds with `log.With`. -/
inductive Valuer
  | DefaultTimestampUTC
  | DefaultCaller
deriving DecidableEq, Repr

/-- A `log.Logger`, represented by the constructor calls that produced it. -/
inductive Logger
  | NewLogfmtLogger
  | NewFilter (next : Logger) (lvl : LevelOption)
  | With (next : Logger) (keyvals : List (String × Valuer))
deriving DecidableEq, Repr

/-! ## prometheus registry -/

/-- The collectors that occur in `main`, and the one the process-wide default
registry is born with. -/
inductive Collector
  | version (program : String)
  | goCollector
  | processCollector
deriving DecidableEq, Repr

/-- A `*prometheus.Registry`: whether it is the process-wide default one, and
the collectors registered on it, in registration order. -/
structure Registry where
  isDefault : Bool
  collectors : List Collector
deriving DecidableEq, Repr

/-- The call `prometheus.NewRegistry()`: a fresh registry holding nothing. -/
def NewRegistry : Registry := { isDefault := false, collectors := [] }

/-- The global `prometheus.DefaultRegisterer`: the process-wide registry, which `main`
never touches. -/
def DefaultRegistry : Registry :=
  { isDefault := true, collectors := [Collector.processCollector, Collector.goCollector] }

/-- The method `(*Registry).MustRegister(cs...)`: registers the collectors in order and
panics (here: `none`) when one of them is already registered. -/
def Registry.MustRegister (r : Registry) : List Collector → Option Registry
  | [] => some r
  | c :: cs =>
    if c ∈ r.collectors then none
    else Registry.MustRegister { r with collectors := r.collectors ++ [c] } cs

/-! ## the command map -/

/-- The type `runFunc func(log.Logger, *prometheus.Registry) error`; the returned
error is `none` for `nil` and `some msg` for an error whose text is `msg`. -/
abbrev runFunc := Logger → Registry → Option String

/-- The type `map[string]runFunc`, as an association list with unique keys. -/
abbrev CmdMap := List (String × runFunc)

/-- The assignment `m[name] = f`. -/
def CmdMap.set (m : CmdMap) (name : String) (f : runFunc) : CmdMap :=
  (m.filter fun e => e.1 != name) ++ [(name, f)]

/-- The lookup `m[name]`; `none` is the nil function a missing key yields. -/
def CmdMap.get (m : CmdMap) (name : String) : Option runFunc :=
  match m with
  | [] => none
  | (k, f) :: rest => if k = name then some f else CmdMap.get rest name

/-- The keys of the map. -/
def CmdMap.keys (m : CmdMap) : List String := m.map Prod.fst

/-! ## kingpin -/

/-- A string flag built with `.Default(d).Enum(options...)`. -/
structure EnumFlag where
  name : String
  help : String
  default : String
  options : List String
deriving DecidableEq, Repr

/-- The `Set` method of kingpin's enum value: the value is stored when it is
one of the options and refused otherwise. -/
def EnumFlag.Set (f : EnumFlag) (value : String) : Except String String :=
  if value ∈ f.options then Except.ok value
  else Except.error ("enum value must be one of " ++ ",".intercalate f.options ++
    ", got '" ++ value ++ "'")

/-- The value the flag holds after parsing: the given operand when the flag
occurs on the command line, the default otherwise, both passed through `Set`. -/
def EnumFlag.resolve (f : EnumFlag) (given : Option String) : Except String String :=
  match given with
  | some v => f.Set v
  | none => f.Set f.default

/-- A `*kingpin.Application`, as far as `main` configures it: `commands` are
the subcommands the program declares (kingpin's built-in help is not among
them). -/
structure Application where
  name : String
  help : String
  version : Option String
  helpShort : Option Char
  logLevel : Option EnumFlag
  commands : List String
deriving DecidableEq, Repr

/-- The call `kingpin.New(name, help)`. -/
def kingpinNew (name help : String) : Application :=
  { name := name, help := help, version := none, helpShort := none,
    logLevel := none, commands := [] }

/-- The call `app.Version(version.Print(program))`: records the program whose
version text is shown. -/
def Application.Version (app : Application) (program : String) : Application :=
  { app with version := some program }

/-- The call `app.HelpFlag.Short(c)`. -/
def Application.HelpFlagShort (app : Application) (c : Char) : Application :=
  { app with helpShort := some c }

/-- The call `app.Flag(name, help).Default(d).Enum(options...)` for the one
flag `main` declares. -/
def Application.Flag (app : Application) (f : EnumFlag) : Application :=
  { app with logLevel := some f }

/-- The call `app.Command(name, ...)`: declares one more subcommand. -/
def Application.Command (app : Application) (name : String) : Application :=
  { app with commands := app.commands ++ [name] }

/-- The slice `os.Args[1:]` as kingpin reads it: the operand of `--log.level`
when the flag occurs; the subcommand token, when there is one; the complaint
(if any) kingpin raises while matching the remaining tokens against the
declared flags and arguments (an unknown flag, a missing operand, an
unexpected argument); and the complaint (if any) raised when the values of the
subcommand's own flags are set. The flags `--help` and `--version` are not
represented. -/
structure Argv where
  logLevel : Option String
  command : Option String
  rest : Option String
  refused : Option String := none
deriving DecidableEq, Repr

/-- The first phase of kingpin's parsing, `parseContext`, which matches the
tokens against what is declared and sets no value: the error, or the selected
subcommand, if one is given. Besides the declared subcommands kingpin knows
its built-in `help`. -/
def Application.parseContext (app : Application) (args : Argv) : Except String (Option String) :=
  match args.command with
  | some c =>
    if c ∈ app.commands ∨ c = "help" then
      match args.rest with
      | some e => Except.error e
      | none => Except.ok (some c)
    else Except.error ("expected command but got \"" ++ c ++ "\"")
  | none =>
    match args.rest with
    | some e => Except.error e
    | none => Except.ok none

/-- The call `app.Parse(args)`. The result is `none` when kingpin answers the
invocation itself, printing the usage and ending the process with status 0
inside `Parse`: for the built-in `help` subcommand and when no subcommand is
given. Otherwise it is what `Parse` returns: the error, or the selected
command's name together with the value left in `*logLevel`. Errors of the
first phase are reported before the flag values are looked at. -/
def Application.Parse (app : Application) (args : Argv) :
    Option (Except String (String × String)) :=
  match app.parseContext args with
  | Except.error e => some (Except.error e)
  | Except.ok selected =>
    if selected = some "help" then none
    else
      let value : Except String String :=
        match app.logLevel, args.logLevel with
        | some flag, given => flag.resolve given
        | none, some _ => Except.error "unknown long flag --log.level"
        | none, none => Except.ok ""
      match value with
      | Except.error e => some (Except.error e)
      | Except.ok lvl =>
        match args.refused with
        | some e => some (Except.error e)
        | none =>
          match selected with
          | none => none
          | some cmd => some (Except.ok (cmd, lvl))

/-- The call `app.Usage(args)`: kingpin parses the arguments once more (first
phase only) to find the help context. When that fails it reports the error
itself and ends the process with status 1, here the error; otherwise it prints
the usage and returns. -/
def Application.Usage (app : Application) (args : Argv) : Except String Unit :=
  match app.parseContext args with
  | Except.error e => Except.error e
  | Except.ok _ => Except.ok ()

/-! ## main -/

/-- The run functions of the three roles; they are built inside the register
functions and are arbitrary here. -/
structure Roles where
  sidecar : runFunc
  store : runFunc
  query : runFunc

/-- Modelled from the spec: `registerSidecar` is called by `main` but defined in
a file that is not among the sources. Following the command surface (one
subcommand per role), it declares the subcommand `name` on the application
and stores the agent role's run function under `name` in the map. -/
def registerSidecar (run : runFunc) (m : CmdMap) (app : Application) (name : String) :
    CmdMap × Application :=
  (m.set name run, app.Command name)

/-- Modelled from the spec: `registerStore` is called by `main` but defined in a
file that is not among the sources. Following the command surface (one
subcommand per role), it declares the subcommand `name` on the application
and stores the gateway role's run function under `name` in the map. -/
def registerStore (run : runFunc) (m : CmdMap) (app : Application) (name : String) :
    CmdMap × Application :=
  (m.set name run, app.Command name)

/-- Modelled from the spec: `registerQuery` is called by `main` but defined in a
file that is not among the sources. Following the command surface (one
subcommand per role), it declares the subcommand `name` on the application
and stores the query role's run function under `name` in the map. -/
def registerQuery (run : runFunc) (m : CmdMap) (app : Application) (name : String) :
    CmdMap × Application :=
  (m.set name run, app.Command name)

/-- The `log.level` flag of lines 30-31. -/
def logLevelFlag : EnumFlag :=
  { name := "log.level", help := "log filtering level", default := "info",
    options := ["error", "warn", "info", "debug"] }

/-- Lines 25-37 of `main`: the application and the command map before parsing. -/
def setup (roles : Roles) (prog : String) : CmdMap × Application :=
  let app := kingpinNew prog "A block storage based long-term storage for Prometheus"
  let app := app.Version "promlts"
  let app := app.HelpFlagShort 'h'
  let app := app.Flag logLevelFlag
  let cmds : CmdMap := []
  let (cmds, app) := registerSidecar roles.sidecar cmds app "sidecar"
  let (cmds, app) := registerStore roles.store cmds app "store"
  let (cmds, app) := registerQuery roles.query cmds app "query"
  (cmds, app)

/-- The switch of lines 49-60; `none` is the `default` branch, which panics. -/
def levelSwitch (logLevel : String) : Option LevelOption :=
  if logLevel = "error" then some LevelOption.AllowError
  else if logLevel = "warn" then some LevelOption.AllowWarn
  else if logLevel = "info" then some LevelOption.AllowInfo
  else if logLevel = "debug" then some LevelOption.AllowDebug
  else none

/-- Lines 61-63: the logger built around the chosen level. -/
def buildLogger (lvl : LevelOption) : Logger :=
  let logger := Logger.NewLogfmtLogger
  let logger := Logger.NewFilter logger lvl
  Logger.With logger [("ts", Valuer.DefaultTimestampUTC), ("caller", Valuer.DefaultCaller)]

/-- How `main` ends. -/
inductive Status
  | returned
  | exit (code : Nat)
  | panic (msg : String)
deriving DecidableEq, Repr

/-- One call of a run function: the map key it was fetched under and the
arguments it received. -/
structure Call where
  name : String
  logger : Logger
  metrics : Registry
deriving DecidableEq, Repr

/-- What a run of `main` does: the lines written to standard error, whether
the usage was printed, the run functions called, and how it ended. -/
structure Outcome where
  stderr : List String
  usage : Bool
  calls : List Call
  status : Status
deriving DecidableEq, Repr

/-- The function `main`. On line 39 the process may end inside `Parse`, with
the usage printed and status 0. On line 42 it may end inside `Usage`, with
kingpin's own error line, no usage and status 1, before line 43 is reached. -/
def main (roles : Roles) (prog : String) (args : Argv) : Outcome :=
  let (cmds, app) := setup roles prog
  match app.Parse args with
  | none => { stderr := [], usage := true, calls := [], status := Status.exit 0 }
  | some (Except.error err) =>
    match app.Usage args with
    | Except.error e =>
      { stderr := ["Error parsing commandline arguments: " ++ err,
                   app.name ++ ": error: " ++ e],
        usage := false, calls := [], status := Status.exit 1 }
    | Except.ok _ =>
      { stderr := ["Error parsing commandline arguments: " ++ err], usage := true,
        calls := [], status := Status.exit 2 }
  | some (Except.ok (cmd, logLevel)) =>
    match levelSwitch logLevel with
    | none =>
      { stderr := [], usage := false, calls := [],
        status := Status.panic "unexpected log level" }
    | some lvl =>
      let logger := buildLogger lvl
      match NewRegistry.MustRegister [Collector.version "prometheus", Collector.goCollector] with
      | none =>
        { stderr := [], usage := false, calls := [],
          status := Status.panic "duplicate metrics collector registration attempted" }
      | some metrics =>
        match cmds.get cmd with
        | none =>
          { stderr := [], usage := false, calls := [],
            status := Status.panic "invalid memory address or nil pointer dereference" }
        | some run =>
          match run logger metrics with
          | some err =>
            { stderr := ["command failed: " ++ err], usage := false,
              calls := [{ name := cmd, logger := logger, metrics := metrics }],
              status := Status.exit 1 }
          | none =>
            { stderr := [], usage := false,
              calls := [{ name := cmd, logger := logger, metrics := metrics }],
              status := Status.returned }

/-! ## interrupt -/

/-- The signals that matter to `interrupt` and two it does not subscribe to. -/
inductive Signal
  | SIGINT
  | SIGTERM
  | SIGHUP
  | SIGQUIT
deriving DecidableEq, Repr

/-- What happens while `interrupt` waits: the signals delivered to the process
and whether the `cancel` channel becomes ready. -/
structure Events where
  delivered : List Signal
  cancel : Bool
deriving DecidableEq, Repr

/-- The call `signal.Notify(c, sigs...)`: the channel receives the delivered signals
that were subscribed to. -/
def Notify (sigs delivered : List Signal) : List Signal :=
  delivered.filter fun s => s ∈ sigs

/-- The function `interrupt`: the results its `select` can return. A case can
be taken only when its channel is ready; when both are ready either may be
taken; when neither is, the call blocks and the list is empty. The error is
`none` for `nil` and `some msg` for an error with text `msg`. -/
def interrupt (ev : Events) : List (Option String) :=
  let c := Notify [Signal.SIGINT, Signal.SIGTERM] ev.delivered
  (if c ≠ [] then [none] else []) ++ (if ev.cancel then [some "canceled"] else [])

/-! ## HTTP handler registration -/

/-- The handlers `registerProfile` and `registerMetrics` install. -/
inductive Handler
  | pprofIndex
  | pprofCmdline
  | pprofProfile
  | pprofSymbol
  | pprofTrace
  | pprofHandler (name : String)
  | promhttpHandlerFor (g : Registry)
deriving DecidableEq, Repr

/-- A `*http.ServeMux`: the registered patterns with their handlers. -/
structure ServeMux where
  entries : List (String × Handler)
deriving DecidableEq, Repr

/-- The call `http.NewServeMux()`. -/
def NewServeMux : ServeMux := { entries := [] }

/-- The patterns registered on the mux. -/
def ServeMux.patterns (mux : ServeMux) : List String := mux.entries.map Prod.fst

/-- The call `mux.Handle(pattern, h)` (and `mux.HandleFunc`): panics, here an error,
on an empty pattern and on a pattern that is already registered. -/
def ServeMux.Handle (mux : ServeMux) (pattern : String) (h : Handler) : Except String ServeMux :=
  if pattern = "" then Except.error "http: invalid pattern"
  else if pattern ∈ mux.patterns then
    Except.error ("http: multiple registrations for " ++ pattern)
  else Except.ok { entries := mux.entries ++ [(pattern, h)] }

/-- The function `registerProfile`. -/
def registerProfile (mux : ServeMux) : Except String ServeMux := do
  let mux ← mux.Handle "/debug/pprof/" Handler.pprofIndex
  let mux ← mux.Handle "/debug/pprof/cmdline" Handler.pprofCmdline
  let mux ← mux.Handle "/debug/pprof/profile" Handler.pprofProfile
  let mux ← mux.Handle "/debug/pprof/symbol" Handler.pprofSymbol
  let mux ← mux.Handle "/debug/pprof/trace" Handler.pprofTrace
  let mux ← mux.Handle "/debug/pprof/block" (Handler.pprofHandler "block")
  let mux ← mux.Handle "/debug/pprof/goroutine" (Handler.pprofHandler "goroutine")
  let mux ← mux.Handle "/debug/pprof/heap" (Handler.pprofHandler "heap")
  mux.Handle "/debug/pprof/threadcreate" (Handler.pprofHandler "threadcreate")

/-- The function `registerMetrics`. -/
def registerMetrics (mux : ServeMux) (g : Registry) : Except String ServeMux :=
  mux.Handle "/metrics" (Handler.promhttpHandlerFor g)

/-- The ten patterns of the metrics and profiling endpoints. -/
def endpointPatterns : List String :=
  ["/metrics", "/debug/pprof/", "/debug/pprof/cmdline", "/debug/pprof/profile",
   "/debug/pprof/symbol", "/debug/pprof/trace", "/debug/pprof/block",
   "/debug/pprof/goroutine", "/debug/pprof/heap", "/debug/pprof/threadcreate"]

/-! ## Series retrieval: data model (spec §3)

The query core (fan-out pruning, label merge, sample dedup) is described by
the specification only; none of its code is among the sources. The
definitions below follow the specification's wording, section by section. -/

/-- Modelled from the spec: a label set (§3), an ordered mapping from label
name to label value, kept as the list of its (name, value) pairs. -/
abbrev LabelSet := List (String × String)

/-- Modelled from the spec: one (timestamp, value) sample (§2, chunk codec).
Values are carried along and never computed on. -/
structure Sample where
  t : Int
  v : Int
deriving DecidableEq, Repr

/-- Modelled from the spec: a chunk (§3), a run of samples, kept decoded. It
covers the time segment from its first to its last timestamp. -/
abbrev Chunk := List Sample

/-- Modelled from the spec: a series (§3), identified by its label set and
owning a sequence of chunks. -/
structure Series where
  labels : LabelSet
  chunks : List Chunk
deriving DecidableEq, Repr

/-- Modelled from the spec: an endpoint descriptor (§3), the advertised label
sets and time range of one serving endpoint. -/
structure EndpointDescriptor where
  labelSets : List LabelSet
  minTime : Int
  maxTime : Int
deriving DecidableEq, Repr

/-- Modelled from the spec: the input of the fan-out orchestrator (§4.2), a
matcher set and a time range. The specification leaves the form of a label
matcher open, so the matcher type `M` is a parameter. -/
structure SeriesRequest (M : Type) where
  matchers : List M
  startTime : Int
  endTime : Int

/-! ## Fan-out pruning (spec §4.2) -/

/-- Modelled from the spec: whether the advertised range [minTime, maxTime] has
empty intersection with the requested range [startTime, endTime] (§4.2). The
intersection runs from the larger of the two lower ends to the smaller of the
two upper ends. -/
def emptyIntersection {M : Type} (d : EndpointDescriptor) (q : SeriesRequest M) : Bool :=
  decide (min d.maxTime q.endTime < max d.minTime q.startTime)

/-- Modelled from the spec: the pruning rule of the fan-out orchestrator (§4.2),
whose code is not among the sources. An endpoint is excluded when its
advertised range has empty intersection with the requested range, or when its
advertised label sets cannot satisfy the matcher set. The specification does
not define the satisfiability test, which is the parameter `canSatisfy`. -/
def excluded {M : Type} (canSatisfy : List LabelSet → List M → Bool)
    (d : EndpointDescriptor) (q : SeriesRequest M) : Bool :=
  emptyIntersection d q || !canSatisfy d.labelSets q.matchers

/-- Modelled from the spec: the candidate subset the orchestrator dispatches
to (§4.2): the endpoints that the pruning rule does not exclude. -/
def prune {M : Type} (canSatisfy : List LabelSet → List M → Bool)
    (endpoints : List EndpointDescriptor) (q : SeriesRequest M) : List EndpointDescriptor :=
  endpoints.filter fun d => !excluded canSatisfy d q

/-! ## Label merge (spec §4.3, layer 1) -/

/-- The code points of a string; strings are compared through them. -/
def codes (s : String) : List ℕ := s.data.map Char.toNat

/-- The type in which label sets are compared: lists of (name, value) pairs
under the lexicographic order, each pair ordered by name and then value. -/
abbrev LabelKey := List (List ℕ ×ₗ List ℕ)

/-- Modelled from the spec: the position of a label set in the lexicographic
order of label sets (§4.3, "lexicographic by the label set"). -/
def labelKey (ls : LabelSet) : LabelKey :=
  ls.map fun l => toLex (codes l.1, codes l.2)

/-- Modelled from the spec: the label set with the replica-distinguishing
label removed (§3, §4.3); `replica` is the name of that label. -/
def stripReplica (replica : String) (ls : LabelSet) : LabelSet :=
  ls.filter fun l => l.1 != replica

/-- Modelled from the spec: the priority of a series in the merge queue
(§4.3): the stripped label set first, ties broken by the full label set. -/
def mergeKey (replica : String) (s : Series) : LabelKey ×ₗ LabelKey :=
  toLex (labelKey (stripReplica replica s.labels), labelKey s.labels)

/-- Modelled from the spec: one pull on the priority queue of the k-way merge
(§4.3): with one cursor per endpoint stream, the head with the smallest
priority is removed from its cursor and returned; among equal heads the
earliest stream wins. The result is `none` when every cursor is exhausted. -/
def popMin (replica : String) : List (List Series) → Option (Series × List (List Series))
  | [] => none
  | [] :: rest =>
    match popMin replica rest with
    | none => none
    | some (s, rest') => some (s, [] :: rest')
  | (x :: xs) :: rest =>
    match popMin replica rest with
    | none => some (x, xs :: rest)
    | some (y, rest') =>
      if mergeKey replica x ≤ mergeKey replica y then some (x, xs :: rest)
      else some (y, (x :: xs) :: rest')

/-- Modelled from the spec: the k-way merge loop (§4.3), pulling from the
queue until it is empty or the fuel runs out. -/
def labelMerge (replica : String) : Nat → List (List Series) → List Series
  | 0, _ => []
  | fuel + 1, cursors =>
    match popMin replica cursors with
    | none => []
    | some (s, cursors') => s :: labelMerge replica fuel cursors'

/-- The number of series held by all streams together. -/
def totalLength (streams : List (List Series)) : Nat :=
  (streams.map List.length).sum

/-- Modelled from the spec: the k-way merge of the endpoints' series streams
(§4.3), run with one unit of fuel per input series. -/
def mergeStreams (replica : String) (streams : List (List Series)) : List Series :=
  labelMerge replica (totalLength streams) streams

/-- Modelled from the spec: a replica group (§3): the series that are
identical except for the replica label, under their common stripped label
set. A series without replicas forms a group of its own. -/
structure Group where
  labels : LabelSet
  members : List Series
deriving DecidableEq, Repr

/-- Modelled from the spec: grouping of the merged sequence (§4.3): adjacent
series whose label sets are identical after removing the replica label are
put into one group. -/
def groupAdjacent (replica : String) : List Series → List Group
  | [] => []
  | s :: rest =>
    match groupAdjacent replica rest with
    | [] => [{ labels := stripReplica replica s.labels, members := [s] }]
    | g :: gs =>
      if stripReplica replica s.labels = g.labels then
        { labels := g.labels, members := s :: g.members } :: gs
      else { labels := stripReplica replica s.labels, members := [s] } :: g :: gs

/-- Modelled from the spec: the label merge stage (§4.3, layer 1), whose code
is not among the sources: the k-way merge of all endpoint streams followed by
the grouping of replicas. -/
def mergeStage (replica : String) (streams : List (List Series)) : List Group :=
  groupAdjacent replica (mergeStreams replica streams)

/-- Modelled from the spec: the order of an endpoint stream (§3, §4.1): its
series are strictly ordered by their label sets, the replica label
included. -/
def LabelSorted (stream : List Series) : Prop :=
  stream.Pairwise fun a b => labelKey a.labels < labelKey b.labels

/-- Modelled from the spec: the order of the merge output (§4.3), asked of a
stream: its series are in non-decreasing order of the label set with the
replica label removed. -/
def StrippedSorted (replica : String) (stream : List Series) : Prop :=
  stream.Pairwise fun a b =>
    labelKey (stripReplica replica a.labels) ≤ labelKey (stripReplica replica b.labels)

/-! ## Sample dedup (spec §4.3, layer 2) -/

/-- Modelled from the spec: part of the dedup walk (§4.3). Whether a timestamp
lies after the last timestamp already produced; before anything was produced
every timestamp does. -/
def after (last : Option Int) (t : Int) : Bool :=
  match last with
  | none => true
  | some l => decide (l < t)

/-- Modelled from the spec: part of the dedup walk (§4.3). The samples of a
segment that lie after the last timestamp produced. -/
def fresh (last : Option Int) (c : Chunk) : Chunk :=
  c.filter fun s => after last s.t

/-- Modelled from the spec: walking a replica's segments in time order
(§4.3), the leading segments that end at or before the last timestamp
produced are passed over. -/
def skipPassed (last : Option Int) : List Chunk → List Chunk
  | [] => []
  | c :: cs => if (fresh last c).isEmpty then skipPassed last cs else c :: cs

/-- Modelled from the spec: part of the dedup walk (§4.3). The instant from
which a segment can contribute: its first timestamp, or the instant after the
last timestamp produced when that is later. -/
def segStart (last : Option Int) (c : Chunk) : Option Int :=
  match c.head?, last with
  | none, _ => none
  | some s, none => some s.t
  | some s, some l => some (max s.t (l + 1))

/-- Modelled from the spec: part of the dedup walk (§4.3). The start of a
replica's next segment, if it has one. -/
def cursorStart (last : Option Int) (r : Series) : Option Int :=
  match r.chunks with
  | [] => none
  | c :: _ => segStart last c

/-- Modelled from the spec: the start of the next window of the walk in time
order (§4.3): the earliest start among the replicas' next segments. -/
def windowStart (last : Option Int) : List Series → Option Int
  | [] => none
  | r :: rs =>
    match cursorStart last r, windowStart last rs with
    | none, w => w
    | some a, none => some a
    | some a, some b => some (min a b)

/-- Modelled from the spec: selection of the single active replica for the
window starting at `w` (§4.3). The replicas whose next segment covers the
start of the window compete; `prefer active a b` is the pluggable
deterministic comparator of §9 and says that `a` is preferred to `b` when
`active` was the replica active so far. The winner is returned together with
the cursors after its segment has been taken. -/
def pickSegment (prefer : Option LabelSet → Series → Series → Bool) (last : Option Int)
    (active : Option LabelSet) (w : Int) : List Series → Option (Series × List Series)
  | [] => none
  | r :: rs =>
    match pickSegment prefer last active w rs with
    | none =>
      if cursorStart last r = some w then
        some (r, { r with chunks := r.chunks.tail } :: rs)
      else none
    | some (b, rs') =>
      if cursorStart last r = some w ∧ prefer active r b = true then
        some (r, { r with chunks := r.chunks.tail } :: rs)
      else some (b, r :: rs')

/-- Modelled from the spec: part of the dedup walk (§4.3). The last timestamp
produced once a piece has been appended. -/
def lastTime (last : Option Int) (piece : Chunk) : Option Int :=
  match piece.getLast? with
  | some s => some s.t
  | none => last

/-- Modelled from the spec: the sample dedup walk (§4.3, layer 2), whose code
is not among the sources. In each round the segments already passed are
dropped, the next window is located, one replica is selected for it, and its
segment is appended from the window start to the segment's end, so that the
active replica changes at segment ends only and samples of two replicas are
never interleaved inside a window. The selected pieces are concatenated. -/
def dedupLoop (prefer : Option LabelSet → Series → Series → Bool) :
    Nat → Option Int → Option LabelSet → List Series → List Sample
  | 0, _, _, _ => []
  | fuel + 1, last, active, cursors =>
    let cursors := cursors.map fun r => { r with chunks := skipPassed last r.chunks }
    match windowStart last cursors with
    | none => []
    | some w =>
      match pickSegment prefer last active w cursors with
      | none => []
      | some (r, cursors') =>
        let piece := fresh last (r.chunks.headD [])
        piece ++ dedupLoop prefer fuel (lastTime last piece) (some r.labels) cursors'

/-- The number of segments held by all replicas together. -/
def totalChunks (replicas : List Series) : Nat :=
  (replicas.map fun r => r.chunks.length).sum

/-- Modelled from the spec: sample dedup of a group of replicas (§4.3), run
with one unit of fuel per segment. -/
def dedup (prefer : Option LabelSet → Series → Series → Bool) (replicas : List Series) :
    List Sample :=
  dedupLoop prefer (totalChunks replicas) none none replicas

/-- Modelled from the spec: the output series of one group (§4.3): the label
set without the replica label and one sample sequence. A group with exactly
one contributing replica passes through unchanged. -/
def dedupGroup (prefer : Option LabelSet → Series → Series → Bool) (g : Group) :
    LabelSet × List Sample :=
  match g.members with
  | [r] => (g.labels, r.chunks.flatten)
  | rs => (g.labels, dedup prefer rs)

/-- Modelled from the spec: the merge and dedup engine (§4.3): label merge of
the endpoint streams, then sample dedup inside every group. -/
def mergeAndDedup (replica : String) (prefer : Option LabelSet → Series → Series → Bool)
    (streams : List (List Series)) : List (LabelSet × List Sample) :=
  (mergeStage replica streams).map (dedupGroup prefer)

/-- The value of the replica label in a label set, empty when it is absent. -/
def replicaValue (replica : String) (ls : LabelSet) : String :=
  match ls.find? fun l => l.1 == replica with
  | some l => l.2
  | none => ""

/-- Modelled from the spec: the comparator the specification gives as an
example (§4.3): a replica that is already active is preferred, and ties are
broken by the value of the replica label. -/
def preferActive (replica : String) (active : Option LabelSet) (a b : Series) : Bool :=
  if active = some a.labels then true
  else if active = some b.labels then false
  else decide (codes (replicaValue replica a.labels) ≤ codes (replicaValue replica b.labels))

/-- Modelled from the spec: the chunk invariant (§3). The samples of a chunk
are in strictly increasing order of time. -/
def ChunkSorted (c : Chunk) : Prop :=
  c.Pairwise fun a b => a.t < b.t

instance (c : Chunk) : Decidable (ChunkSorted c) := by
  unfold ChunkSorted
  infer_instance

instance (replica : String) (stream : List Series) :
    Decidable (StrippedSorted replica stream) := by
  unfold StrippedSorted
  infer_instance

instance (stream : List Series) : Decidable (LabelSorted stream) := by
  unfold LabelSorted
  infer_instance

/-- Scenario A (§8): the series of endpoint X. -/
def scenarioX : Series :=
  { labels := [("job", "x"), ("replica", "a")],
    chunks := [[{ t := 0, v := 1 }, { t := 10, v := 2 }, { t := 20, v := 3 }]] }

/-- Scenario A (§8): the series of the replica endpoint Y. -/
def scenarioY : Series :=
  { labels := [("job", "x"), ("replica", "b")],
    chunks := [[{ t := 10, v := 2 }, { t := 20, v := 3 }, { t := 30, v := 4 }]] }

/-- A third endpoint stream, holding two series without replicas. -/
def otherStream : List Series :=
  [{ labels := [("job", "w")], chunks := [[{ t := 5, v := 7 }]] },
   { labels := [("job", "y"), ("replica", "a")], chunks := [] }]

/-- One endpoint stream in strictly increasing order of its label sets, every
series carrying the same replica label. -/
def fullOrderStream : List Series :=
  [{ labels := [("a", "1"), ("b", "2"), ("replica", "a")], chunks := [] },
   { labels := [("a", "1"), ("replica", "a")], chunks := [] }]

/-- The stream of a second endpoint, holding a replica of the last series of
`fullOrderStream`. -/
def replicaStream : List Series :=
  [{ labels := [("a", "1"), ("replica", "b")], chunks := [] }]

/-- Run functions for trying `main` out: the agent and the gateway return
`nil`, the query role fails. -/
def exampleRoles : Roles :=
  { sidecar := fun _ _ => none, store := fun _ _ => none, query := fun _ _ => some "no peers" }

/-! ## Theorems -/

theorem setup_eq (roles : Roles) (prog : String) :
    setup roles prog =
      ([("sidecar", roles.sidecar), ("store", roles.store), ("query", roles.query)],
       { name := prog, help := "A block storage based long-term storage for Prometheus",
         version := some "promlts", helpShort := some 'h', logLevel := some logLevelFlag,
         commands := ["sidecar", "store", "query"] }) := by
  simp [setup, registerSidecar, registerStore, registerQuery, CmdMap.set,
    Application.Command, Application.Version, Application.HelpFlagShort, Application.Flag,
    kingpinNew]

/-- The registry `main` builds on lines 66-71. -/
theorem mustRegister_eq :
    NewRegistry.MustRegister [Collector.version "prometheus", Collector.goCollector] =
      some { isDefault := false,
             collectors := [Collector.version "prometheus", Collector.goCollector] } := by
  simp [Registry.MustRegister, NewRegistry]

theorem resolve_ok_iff (given : Option String) (lvl : String) :
    logLevelFlag.resolve given = Except.ok lvl ↔
      (given = some lvl ∨ (given = none ∧ lvl = "info")) ∧
      (lvl = "error" ∨ lvl = "warn" ∨ lvl = "info" ∨ lvl = "debug") := by
  cases given with
  | none =>
    simp only [EnumFlag.resolve, EnumFlag.Set, logLevelFlag]
    constructor
    · intro h
      simp at h
      subst h
      simp
    · rintro ⟨h, -⟩
      simp at h
      subst h
      simp
  | some v =>
    simp only [EnumFlag.resolve, EnumFlag.Set, logLevelFlag]
    by_cases hv : v ∈ ["error", "warn", "info", "debug"]
    · rw [if_pos hv]
      constructor
      · intro h
        simp at h
        subst h
        simpa using hv
      · rintro ⟨h, -⟩
        simp at h
        subst h
        rfl
    · rw [if_neg hv]
      constructor
      · intro h
        simp at h
      · rintro ⟨h, h2⟩
        simp at h
        subst h
        exact absurd (by simpa using h2) hv

theorem levelSwitch_of_option (lvl : String)
    (h : lvl = "error" ∨ lvl = "warn" ∨ lvl = "info" ∨ lvl = "debug") :
    (lvl = "error" ∧ levelSwitch lvl = some LevelOption.AllowError) ∨
    (lvl = "warn" ∧ levelSwitch lvl = some LevelOption.AllowWarn) ∨
    (lvl = "info" ∧ levelSwitch lvl = some LevelOption.AllowInfo) ∨
    (lvl = "debug" ∧ levelSwitch lvl = some LevelOption.AllowDebug) := by
  rcases h with h | h | h | h <;> subst h <;> simp [levelSwitch]

theorem parse_ok_iff (roles : Roles) (prog : String) (args : Argv) (cmd lvl : String) :
    (setup roles prog).2.Parse args = some (Except.ok (cmd, lvl)) ↔
      args.command = some cmd ∧ (cmd = "sidecar" ∨ cmd = "store" ∨ cmd = "query") ∧
      args.rest = none ∧ args.refused = none ∧
      logLevelFlag.resolve args.logLevel = Except.ok lvl := by
  rw [setup_eq]
  obtain ⟨given, command, rest, refused⟩ := args
  cases command with
  | none =>
    simp only [Application.Parse, Application.parseContext]
    cases rest with
    | some e => simp
    | none =>
      cases hr : logLevelFlag.resolve given with
      | error e => simp
      | ok l => cases refused <;> simp
  | some c =>
    simp only [Application.Parse, Application.parseContext]
    by_cases hc : c ∈ ["sidecar", "store", "query"] ∨ c = "help"
    · rw [if_pos hc]
      cases rest with
      | some e => simp
      | none =>
        simp only
        by_cases hh : c = "help"
        · subst hh
          simp only [if_true]
          constructor
          · intro h
            cases h
          · rintro ⟨h1, h2, -⟩
            simp only [Option.some.injEq] at h1
            subst h1
            simp at h2
        · have hmem : c = "sidecar" ∨ c = "store" ∨ c = "query" := by
            rcases hc with h | h
            · simpa using h
            · exact absurd h hh
          simp only [Option.some.injEq, hh, if_false]
          cases hr : logLevelFlag.resolve given with
          | error e => simp
          | ok l =>
            cases refused with
            | some e => simp
            | none =>
              simp only [Option.some.injEq, Except.ok.injEq, Prod.mk.injEq, and_true,
                true_and]
              constructor
              · rintro ⟨h1, h2⟩
                subst h1 h2
                exact ⟨rfl, hmem, rfl⟩
              · rintro ⟨h1, -, h2⟩
                exact ⟨h1, h2⟩
    · rw [if_neg hc]
      constructor
      · intro h
        simp at h
      · rintro ⟨h1, h2, -⟩
        simp only [Option.some.injEq] at h1
        subst h1
        exact absurd (Or.inl (by simpa using h2)) hc

theorem get_setup (roles : Roles) (prog : String) (cmd : String)
    (h : cmd = "sidecar" ∨ cmd = "store" ∨ cmd = "query") :
    ∃ run, (setup roles prog).1.get cmd = some run := by
  rw [setup_eq]
  rcases h with h | h | h <;> subst h <;> simp [CmdMap.get]

theorem main_of_parse_error (roles : Roles) (prog : String) (args : Argv) (err : String)
    (h : (setup roles prog).2.Parse args = some (Except.error err)) :
    main roles prog args =
      match (setup roles prog).2.Usage args with
      | Except.error e =>
        { stderr := ["Error parsing commandline arguments: " ++ err, prog ++ ": error: " ++ e],
          usage := false, calls := [], status := Status.exit 1 }
      | Except.ok _ =>
        { stderr := ["Error parsing commandline arguments: " ++ err], usage := true,
          calls := [], status := Status.exit 2 } := by
  simp only [main]
  rw [h]
  simp only
  cases (setup roles prog).2.Usage args with
  | error e => simp only [setup_eq]
  | ok u => rfl

theorem main_of_parse_exit (roles : Roles) (prog : String) (args : Argv)
    (h : (setup roles prog).2.Parse args = none) :
    main roles prog args =
      { stderr := [], usage := true, calls := [], status := Status.exit 0 } := by
  simp only [main]
  rw [h]

theorem main_of_parse_ok (roles : Roles) (prog : String) (args : Argv) (cmd lvl : String)
    (h : (setup roles prog).2.Parse args = some (Except.ok (cmd, lvl))) :
    ∃ run o, (setup roles prog).1.get cmd = some run ∧ levelSwitch lvl = some o ∧
      main roles prog args =
        match run (buildLogger o)
            { isDefault := false,
              collectors := [Collector.version "prometheus", Collector.goCollector] } with
        | some err =>
          { stderr := ["command failed: " ++ err], usage := false,
            calls := [{ name := cmd, logger := buildLogger o,
                        metrics := { isDefault := false,
                                     collectors := [Collector.version "prometheus",
                                                    Collector.goCollector] } }],
            status := Status.exit 1 }
        | none =>
          { stderr := [], usage := false,
            calls := [{ name := cmd, logger := buildLogger o,
                        metrics := { isDefault := false,
                                     collectors := [Collector.version "prometheus",
                                                    Collector.goCollector] } }],
            status := Status.returned } := by
  have hp := (parse_ok_iff roles prog args cmd lvl).1 h
  obtain ⟨-, hcmd, -, -, hres⟩ := hp
  obtain ⟨run, hrun⟩ := get_setup roles prog cmd hcmd
  have hl := levelSwitch_of_option lvl ((resolve_ok_iff _ _).1 hres).2
  have ho : ∃ o, levelSwitch lvl = some o := by
    rcases hl with ⟨-, h⟩ | ⟨-, h⟩ | ⟨-, h⟩ | ⟨-, h⟩ <;> exact ⟨_, h⟩
  obtain ⟨o, ho⟩ := ho
  refine ⟨run, o, hrun, ho, ?_⟩
  simp only [main]
  rw [h]
  simp only [ho, mustRegister_eq, hrun]

/-! ### The command surface -/

/-- C1: the command surface built by `main` consists of exactly three
subcommands, declared under the pairwise distinct names "sidecar", "store" and
"query"; the command map has exactly these three keys, holding the run
function of the agent, gateway and query role respectively, and nothing else
is registered. -/
theorem command_surface (roles : Roles) (prog : String) :
    (setup roles prog).2.commands = ["sidecar", "store", "query"] ∧
    (setup roles prog).1.keys = ["sidecar", "store", "query"] ∧
    (["sidecar", "store", "query"] : List String).Nodup ∧
    (setup roles prog).1.get "sidecar" = some roles.sidecar ∧
    (setup roles prog).1.get "store" = some roles.store ∧
    (setup roles prog).1.get "query" = some roles.query ∧
    (∀ name : String, name ≠ "sidecar" → name ≠ "store" → name ≠ "query" →
      name ∉ (setup roles prog).2.commands ∧ (setup roles prog).1.get name = none) := by
  rw [setup_eq]
  refine ⟨rfl, rfl, by decide, ?_, ?_, ?_, ?_⟩
  · simp [CmdMap.get]
  · simp [CmdMap.get]
  · simp [CmdMap.get]
  · intro name h1 h2 h3
    constructor
    · simp [h1, h2, h3]
    · simp [CmdMap.get, Ne.symm h1, Ne.symm h2, Ne.symm h3]

/-- C2: the flag "log.level" accepts exactly the four values error, warn, info
and debug, holds info when it is not given, and for every accepted value
`main` hands the command a logger filtered at the level of the same name. -/
theorem log_level_flag (roles : Roles) (prog : String) :
    (setup roles prog).2.logLevel = some logLevelFlag ∧
    logLevelFlag.name = "log.level" ∧
    (∀ v : String, (∃ r, logLevelFlag.resolve (some v) = Except.ok r) ↔
      (v = "error" ∨ v = "warn" ∨ v = "info" ∨ v = "debug")) ∧
    (∀ v r : String, logLevelFlag.resolve (some v) = Except.ok r → r = v) ∧
    logLevelFlag.resolve none = Except.ok "info" ∧
    (∀ (args : Argv) (cmd lvl : String),
      (setup roles prog).2.Parse args = some (Except.ok (cmd, lvl)) →
      (args.logLevel = some lvl ∨ (args.logLevel = none ∧ lvl = "info")) ∧
      ((lvl = "error" ∧ (main roles prog args).calls.map Call.logger =
          [Logger.With (Logger.NewFilter Logger.NewLogfmtLogger LevelOption.AllowError)
            [("ts", Valuer.DefaultTimestampUTC), ("caller", Valuer.DefaultCaller)]]) ∨
       (lvl = "warn" ∧ (main roles prog args).calls.map Call.logger =
          [Logger.With (Logger.NewFilter Logger.NewLogfmtLogger LevelOption.AllowWarn)
            [("ts", Valuer.DefaultTimestampUTC), ("caller", Valuer.DefaultCaller)]]) ∨
       (lvl = "info" ∧ (main roles prog args).calls.map Call.logger =
          [Logger.With (Logger.NewFilter Logger.NewLogfmtLogger LevelOption.AllowInfo)
            [("ts", Valuer.DefaultTimestampUTC), ("caller", Valuer.DefaultCaller)]]) ∨
       (lvl = "debug" ∧ (main roles prog args).calls.map Call.logger =
          [Logger.With (Logger.NewFilter Logger.NewLogfmtLogger LevelOption.AllowDebug)
            [("ts", Valuer.DefaultTimestampUTC), ("caller", Valuer.DefaultCaller)]]))) := by
  refine ⟨by rw [setup_eq], rfl, ?_, ?_, ?_, ?_⟩
  · intro v
    constructor
    · rintro ⟨r, hr⟩
      obtain ⟨h1, h2⟩ := (resolve_ok_iff _ _).1 hr
      simp at h1
      subst h1
      exact h2
    · intro h
      exact ⟨v, (resolve_ok_iff _ _).2 ⟨Or.inl rfl, h⟩⟩
  · intro v r hr
    have h1 := ((resolve_ok_iff _ _).1 hr).1
    simp at h1
    exact h1.symm
  · exact (resolve_ok_iff _ _).2 ⟨Or.inr ⟨rfl, rfl⟩, Or.inr (Or.inr (Or.inl rfl))⟩
  · intro args cmd lvl h
    obtain ⟨-, -, -, -, hres⟩ := (parse_ok_iff roles prog args cmd lvl).1 h
    obtain ⟨hgiven, hopt⟩ := (resolve_ok_iff _ _).1 hres
    refine ⟨hgiven, ?_⟩
    obtain ⟨run, o, -, ho, hmain⟩ := main_of_parse_ok roles prog args cmd lvl h
    have hcalls : (main roles prog args).calls.map Call.logger = [buildLogger o] := by
      rw [hmain]
      cases run (buildLogger o)
        { isDefault := false,
          collectors := [Collector.version "prometheus", Collector.goCollector] } <;> rfl
    rw [hcalls]
    rcases levelSwitch_of_option lvl hopt with ⟨h1, h2⟩ | ⟨h1, h2⟩ | ⟨h1, h2⟩ | ⟨h1, h2⟩
    · rw [h2] at ho
      cases ho
      exact Or.inl ⟨h1, rfl⟩
    · rw [h2] at ho
      cases ho
      exact Or.inr (Or.inl ⟨h1, rfl⟩)
    · rw [h2] at ho
      cases ho
      exact Or.inr (Or.inr (Or.inl ⟨h1, rfl⟩))
    · rw [h2] at ho
      cases ho
      exact Or.inr (Or.inr (Or.inr ⟨h1, rfl⟩))

/-- C3: on an initially empty mux, `registerMetrics` and `registerProfile`
succeed in either call order (no pattern is registered twice, which would
panic) and leave handlers on exactly the ten endpoint patterns, which are
pairwise distinct. -/
theorem endpoint_patterns (g : Registry) :
    (∃ mux, (registerMetrics NewServeMux g >>= registerProfile) = Except.ok mux ∧
      mux.patterns.Nodup ∧ mux.patterns.length = 10 ∧
      ∀ p, p ∈ mux.patterns ↔ p ∈ endpointPatterns) ∧
    (∃ mux, (registerProfile NewServeMux >>= fun m => registerMetrics m g) = Except.ok mux ∧
      mux.patterns.Nodup ∧ mux.patterns.length = 10 ∧
      ∀ p, p ∈ mux.patterns ↔ p ∈ endpointPatterns) ∧
    endpointPatterns.Nodup ∧
    endpointPatterns =
      ["/metrics", "/debug/pprof/", "/debug/pprof/cmdline", "/debug/pprof/profile",
       "/debug/pprof/symbol", "/debug/pprof/trace", "/debug/pprof/block",
       "/debug/pprof/goroutine", "/debug/pprof/heap", "/debug/pprof/threadcreate"] := by
  refine ⟨⟨_, rfl, ?_, rfl, ?_⟩, ⟨_, rfl, ?_, rfl, ?_⟩, by decide, rfl⟩
  · simp [ServeMux.patterns, NewServeMux]
  · intro p
    simp [ServeMux.patterns, NewServeMux, endpointPatterns]
  · simp [ServeMux.patterns, NewServeMux]
  · intro p
    simp [ServeMux.patterns, NewServeMux, endpointPatterns]
    tauto

/-! ### Dispatch and exit paths of `main` -/

/-- C7: when the arguments parse to a command name, `main` calls the run
function stored in the command map under that name, exactly once and no other,
with the logger it built and with the registry it created itself through
`NewRegistry`, which holds exactly the version collector and the Go collector
and is not the process-wide default registry. -/
theorem selected_command_called (roles : Roles) (prog : String) (args : Argv)
    (cmd lvl : String) (h : (setup roles prog).2.Parse args = some (Except.ok (cmd, lvl))) :
    ∃ run o metrics,
      (setup roles prog).1.get cmd = some run ∧
      levelSwitch lvl = some o ∧
      NewRegistry.MustRegister [Collector.version "prometheus", Collector.goCollector] =
        some metrics ∧
      metrics.collectors = [Collector.version "prometheus", Collector.goCollector] ∧
      metrics.isDefault = false ∧ metrics ≠ DefaultRegistry ∧
      (main roles prog args).calls =
        [{ name := cmd, logger := buildLogger o, metrics := metrics }] ∧
      (main roles prog args).status =
        (match run (buildLogger o) metrics with
         | some _ => Status.exit 1
         | none => Status.returned) := by
  obtain ⟨run, o, hrun, ho, hmain⟩ := main_of_parse_ok roles prog args cmd lvl h
  refine ⟨run, o, _, hrun, ho, mustRegister_eq, rfl, rfl, by decide, ?_, ?_⟩
  · rw [hmain]
    cases run (buildLogger o)
      { isDefault := false,
        collectors := [Collector.version "prometheus", Collector.goCollector] } <;> rfl
  · rw [hmain]
    cases run (buildLogger o)
      { isDefault := false,
        collectors := [Collector.version "prometheus", Collector.goCollector] } <;> rfl

/-- Witness for C7: `promlts --log.level=debug query` parses to "query" and the
query role's run function is the one called. -/
theorem selected_command_called_witness :
    (setup exampleRoles "promlts").2.Parse
        { logLevel := some "debug", command := some "query", rest := none } =
      some (Except.ok ("query", "debug")) ∧
    ∃ run o metrics,
      (setup exampleRoles "promlts").1.get "query" = some run ∧
      levelSwitch "debug" = some o ∧
      NewRegistry.MustRegister [Collector.version "prometheus", Collector.goCollector] =
        some metrics ∧
      metrics.collectors = [Collector.version "prometheus", Collector.goCollector] ∧
      metrics.isDefault = false ∧ metrics ≠ DefaultRegistry ∧
      (main exampleRoles "promlts"
          { logLevel := some "debug", command := some "query", rest := none }).calls =
        [{ name := "query", logger := buildLogger o, metrics := metrics }] ∧
      (main exampleRoles "promlts"
          { logLevel := some "debug", command := some "query", rest := none }).status =
        (match run (buildLogger o) metrics with
         | some _ => Status.exit 1
         | none => Status.returned) :=
  ⟨rfl, selected_command_called exampleRoles "promlts"
    { logLevel := some "debug", command := some "query", rest := none } "query" "debug" rfl⟩

/-- C8: at `promlts bogus` the program does not do what the claim says.
Parsing fails and `main` prints the wrapped error, but then `Usage`, parsing
the arguments once more, reports the error itself and ends the process with
status 1 without printing the usage; the exit with status 2 on line 43 is not
reached. So a parse failure can end with status 1, and status 1 does not imply
that a command ran. At `promlts --log.level=loud store`, where only a flag
value is refused, `main` prints the wrapped error and the usage and ends with
status 2. -/
theorem unknown_command_exit :
    (setup exampleRoles "promlts").2.Parse
        { logLevel := none, command := some "bogus", rest := none } =
      some (Except.error "expected command but got \"bogus\"") ∧
    main exampleRoles "promlts" { logLevel := none, command := some "bogus", rest := none } =
      { stderr := ["Error parsing commandline arguments: expected command but got \"bogus\"",
                   "promlts: error: expected command but got \"bogus\""],
        usage := false, calls := [], status := Status.exit 1 } ∧
    (setup exampleRoles "promlts").2.Parse
        { logLevel := some "loud", command := some "store", rest := none } =
      some (Except.error "enum value must be one of error,warn,info,debug, got 'loud'") ∧
    main exampleRoles "promlts"
        { logLevel := some "loud", command := some "store", rest := none } =
      { stderr := ["Error parsing commandline arguments: " ++
                   "enum value must be one of error,warn,info,debug, got 'loud'"],
        usage := true, calls := [], status := Status.exit 2 } := by
  refine ⟨rfl, by decide, rfl, by decide⟩

/-- The normal return of `main`: it happens exactly when parsing succeeds and
the run function stored under the selected name, called with the logger and
the registry `main` built, returns `nil`. -/
theorem main_returned_iff (roles : Roles) (prog : String) (args : Argv) :
    (main roles prog args).status = Status.returned ↔
      ∃ cmd lvl run o, (setup roles prog).2.Parse args = some (Except.ok (cmd, lvl)) ∧
        (setup roles prog).1.get cmd = some run ∧ levelSwitch lvl = some o ∧
        run (buildLogger o)
          { isDefault := false,
            collectors := [Collector.version "prometheus", Collector.goCollector] } = none := by
  cases hp : (setup roles prog).2.Parse args with
  | none =>
    rw [main_of_parse_exit roles prog args hp]
    constructor
    · intro h
      cases h
    · rintro ⟨cmd, lvl, run, o, h, -⟩
      cases h
  | some r =>
    cases r with
    | error err =>
      rw [main_of_parse_error roles prog args err hp]
      constructor
      · intro h
        cases hu : (setup roles prog).2.Usage args <;> rw [hu] at h <;> cases h
      · rintro ⟨cmd, lvl, run, o, h, -⟩
        cases h
    | ok v =>
      obtain ⟨cmd, lvl⟩ := v
      obtain ⟨run, o, hrun, ho, hmain⟩ := main_of_parse_ok roles prog args cmd lvl hp
      rw [hmain]
      constructor
      · intro h
        refine ⟨cmd, lvl, run, o, rfl, hrun, ho, ?_⟩
        cases hr : run (buildLogger o)
            { isDefault := false,
              collectors := [Collector.version "prometheus", Collector.goCollector] } with
        | none => rfl
        | some e =>
          rw [hr] at h
          cases h
      · rintro ⟨cmd2, lvl2, run2, o2, h1, h2, h3, h4⟩
        cases h1
        rw [hrun] at h2
        cases h2
        rw [ho] at h3
        cases h3
        rw [h4]

/-- C10: once parsing has succeeded, the value of the `log.level` flag is one
of the enum values, the switch takes one of its four cases, and `main` does not
end in the `default` branch with the panic "unexpected log level". -/
theorem default_branch_unreachable (roles : Roles) (prog : String) (args : Argv)
    (cmd lvl : String) (h : (setup roles prog).2.Parse args = some (Except.ok (cmd, lvl))) :
    lvl ∈ logLevelFlag.options ∧ levelSwitch lvl ≠ none ∧
    (main roles prog args).status ≠ Status.panic "unexpected log level" := by
  obtain ⟨-, -, -, -, hres⟩ := (parse_ok_iff roles prog args cmd lvl).1 h
  obtain ⟨-, hopt⟩ := (resolve_ok_iff _ _).1 hres
  obtain ⟨run, o, -, ho, hmain⟩ := main_of_parse_ok roles prog args cmd lvl h
  refine ⟨by simpa [logLevelFlag] using hopt, by simp [ho], ?_⟩
  rw [hmain]
  cases run (buildLogger o)
    { isDefault := false,
      collectors := [Collector.version "prometheus", Collector.goCollector] } <;> simp

/-- Witness for C10: `promlts store` parses, the flag holds its default "info",
and the switch does not reach its `default` branch. -/
theorem default_branch_unreachable_witness :
    (setup exampleRoles "promlts").2.Parse
        { logLevel := none, command := some "store", rest := none } =
      some (Except.ok ("store", "info")) ∧
    "info" ∈ logLevelFlag.options ∧ levelSwitch "info" ≠ none ∧
    (main exampleRoles "promlts" { logLevel := none, command := some "store", rest := none }).status ≠
      Status.panic "unexpected log level" :=
  ⟨rfl, default_branch_unreachable exampleRoles "promlts"
    { logLevel := none, command := some "store", rest := none } "store" "info" rfl⟩

/-! ### interrupt -/

/-- C9: `interrupt` returns only after a subscribed signal was delivered or the
cancel channel fired: a `nil` result means SIGINT or SIGTERM was delivered, a
non-nil result means cancel fired and the error text is exactly "canceled";
with only a signal the result is `nil`, with only cancel it is the "canceled"
error, and with neither the call does not return. -/
theorem interrupt_results (ev : Events) :
    (none ∈ interrupt ev →
      ∃ s ∈ ev.delivered, s = Signal.SIGINT ∨ s = Signal.SIGTERM) ∧
    (∀ msg, some msg ∈ interrupt ev → ev.cancel = true ∧ msg = "canceled") ∧
    ((∃ s ∈ ev.delivered, s = Signal.SIGINT ∨ s = Signal.SIGTERM) → ev.cancel = false →
      interrupt ev = [none]) ∧
    ((∀ s ∈ ev.delivered, s ≠ Signal.SIGINT ∧ s ≠ Signal.SIGTERM) → ev.cancel = true →
      interrupt ev = [some "canceled"]) ∧
    (interrupt ev = [] ↔
      (∀ s ∈ ev.delivered, s ≠ Signal.SIGINT ∧ s ≠ Signal.SIGTERM) ∧ ev.cancel = false) := by
  obtain ⟨delivered, cancel⟩ := ev
  have key : (∃ s ∈ delivered, s = Signal.SIGINT ∨ s = Signal.SIGTERM) ↔
      Notify [Signal.SIGINT, Signal.SIGTERM] delivered ≠ [] := by
    constructor
    · rintro ⟨s, hs, h⟩ hnil
      have hmem : s ∈ Notify [Signal.SIGINT, Signal.SIGTERM] delivered :=
        List.mem_filter.2 ⟨hs, by simpa using h⟩
      rw [hnil] at hmem
      cases hmem
    · intro h
      obtain ⟨s, hs⟩ := List.exists_mem_of_ne_nil _ h
      have hmem := List.mem_filter.1 hs
      exact ⟨s, hmem.1, by simpa using hmem.2⟩
  have hall : (∀ s ∈ delivered, s ≠ Signal.SIGINT ∧ s ≠ Signal.SIGTERM) ↔
      ¬ ∃ s ∈ delivered, s = Signal.SIGINT ∨ s = Signal.SIGTERM := by
    push_neg
    rfl
  rw [hall, key]
  by_cases hc : Notify [Signal.SIGINT, Signal.SIGTERM] delivered = [] <;>
    cases cancel <;> simp [interrupt, hc]

/-! ### Fan-out pruning -/

theorem emptyIntersection_iff {M : Type} (d : EndpointDescriptor) (q : SeriesRequest M) :
    emptyIntersection d q = true ↔
      ¬ ∃ t : Int, d.minTime ≤ t ∧ t ≤ d.maxTime ∧ q.startTime ≤ t ∧ t ≤ q.endTime := by
  simp only [emptyIntersection, decide_eq_true_eq]
  constructor
  · rintro h ⟨t, h1, h2, h3, h4⟩
    have hlo : max d.minTime q.startTime ≤ t := max_le h1 h3
    have hhi : t ≤ min d.maxTime q.endTime := le_min h2 h4
    omega
  · intro h
    by_contra hc
    push_neg at hc
    exact h ⟨max d.minTime q.startTime, le_max_left _ _, le_trans hc (min_le_left _ _),
      le_max_right _ _, le_trans hc (min_le_right _ _)⟩

/-- C6: for every endpoint descriptor and every request, pruning excludes the
endpoint whenever its advertised time range has empty intersection with the
requested range, and it excludes an endpoint only if that intersection is
empty or the advertised label sets cannot satisfy the matcher set; the
endpoints dispatched to are exactly the ones not excluded. -/
theorem pruning_rule {M : Type} (canSatisfy : List LabelSet → List M → Bool)
    (d : EndpointDescriptor) (q : SeriesRequest M) :
    ((¬ ∃ t : Int, d.minTime ≤ t ∧ t ≤ d.maxTime ∧ q.startTime ≤ t ∧ t ≤ q.endTime) →
      excluded canSatisfy d q = true) ∧
    (excluded canSatisfy d q = true →
      (¬ ∃ t : Int, d.minTime ≤ t ∧ t ≤ d.maxTime ∧ q.startTime ≤ t ∧ t ≤ q.endTime) ∨
      canSatisfy d.labelSets q.matchers = false) ∧
    (∀ endpoints : List EndpointDescriptor,
      d ∈ prune canSatisfy endpoints q ↔ d ∈ endpoints ∧ excluded canSatisfy d q = false) := by
  refine ⟨?_, ?_, ?_⟩
  · intro h
    simp [excluded, (emptyIntersection_iff d q).2 h]
  · intro h
    simp only [excluded, Bool.or_eq_true, Bool.not_eq_true'] at h
    rcases h with h | h
    · exact Or.inl ((emptyIntersection_iff d q).1 h)
    · exact Or.inr h
  · intro endpoints
    simp [prune, List.mem_filter]

/-- Pruning at work: of two endpoints with every matcher set satisfiable, the
one advertising [100, 200] is dropped for the request range [300, 400] and
the one advertising [350, 500] is kept. -/
theorem prune_example :
    prune (fun _ (_ : List Unit) => true)
      [{ labelSets := [], minTime := 100, maxTime := 200 },
       { labelSets := [], minTime := 350, maxTime := 500 }]
      { matchers := [], startTime := 300, endTime := 400 } =
      [{ labelSets := [], minTime := 350, maxTime := 500 }] := by
  decide

/-! ### Label merge -/

theorem popMin_none (replica : String) (cursors : List (List Series))
    (h : popMin replica cursors = none) : cursors.flatten = [] := by
  induction cursors with
  | nil => rfl
  | cons c rest ih =>
    cases c with
    | nil =>
      simp only [popMin] at h
      cases hr : popMin replica rest with
      | none => simpa using ih hr
      | some r => rw [hr] at h; cases h
    | cons x xs =>
      simp only [popMin] at h
      cases hr : popMin replica rest with
      | none => rw [hr] at h; cases h
      | some r =>
        rw [hr] at h
        obtain ⟨y, rest2⟩ := r
        simp only at h
        split at h <;> cases h

theorem popMin_perm (replica : String) (cursors : List (List Series)) (s : Series)
    (cursors2 : List (List Series)) (h : popMin replica cursors = some (s, cursors2)) :
    (s :: cursors2.flatten).Perm cursors.flatten := by
  induction cursors generalizing s cursors2 with
  | nil => simp [popMin] at h
  | cons c rest ih =>
    cases c with
    | nil =>
      simp only [popMin] at h
      cases hr : popMin replica rest with
      | none => rw [hr] at h; cases h
      | some r =>
        rw [hr] at h
        obtain ⟨y, rest2⟩ := r
        simp only [Option.some.injEq, Prod.mk.injEq] at h
        obtain ⟨h1, h2⟩ := h
        subst h1 h2
        simpa using ih y rest2 hr
    | cons x xs =>
      simp only [popMin] at h
      cases hr : popMin replica rest with
      | none =>
        rw [hr] at h
        simp only [Option.some.injEq, Prod.mk.injEq] at h
        obtain ⟨h1, h2⟩ := h
        subst h1 h2
        simp
      | some r =>
        rw [hr] at h
        obtain ⟨y, rest2⟩ := r
        simp only at h
        split at h
        · simp only [Option.some.injEq, Prod.mk.injEq] at h
          obtain ⟨h1, h2⟩ := h
          subst h1 h2
          simp
        · simp only [Option.some.injEq, Prod.mk.injEq] at h
          obtain ⟨h1, h2⟩ := h
          subst h1 h2
          have hp := ih y rest2 hr
          simp only [List.flatten_cons, List.cons_append]
          exact (@List.perm_middle _ y (x :: xs) rest2.flatten).symm.trans
            (List.Perm.append_left (x :: xs) hp)

theorem totalLength_eq (streams : List (List Series)) :
    totalLength streams = streams.flatten.length := by
  induction streams with
  | nil => rfl
  | cons c rest ih =>
    simp only [totalLength, List.map_cons, List.sum_cons, List.flatten_cons,
      List.length_append] at ih ⊢
    rw [ih]

theorem popMin_sorted (replica : String) (cursors : List (List Series)) (s : Series)
    (cursors2 : List (List Series)) (h : popMin replica cursors = some (s, cursors2))
    (hs : ∀ st ∈ cursors, StrippedSorted replica st) :
    ∀ st ∈ cursors2, StrippedSorted replica st := by
  induction cursors generalizing s cursors2 with
  | nil => simp [popMin] at h
  | cons c rest ih =>
    have hrest : ∀ st ∈ rest, StrippedSorted replica st :=
      fun st hst => hs st (List.mem_cons_of_mem _ hst)
    have hc : StrippedSorted replica c := hs c (List.mem_cons_self _ _)
    cases c with
    | nil =>
      simp only [popMin] at h
      cases hr : popMin replica rest with
      | none => rw [hr] at h; cases h
      | some r =>
        rw [hr] at h
        obtain ⟨y, rest2⟩ := r
        simp only [Option.some.injEq, Prod.mk.injEq] at h
        obtain ⟨h1, h2⟩ := h
        subst h1 h2
        intro st hst
        rcases List.mem_cons.1 hst with h3 | h3
        · subst h3; exact hc
        · exact ih y rest2 hr hrest st h3
    | cons x xs =>
      have hxs : StrippedSorted replica xs := (List.pairwise_cons.1 hc).2
      simp only [popMin] at h
      cases hr : popMin replica rest with
      | none =>
        rw [hr] at h
        simp only [Option.some.injEq, Prod.mk.injEq] at h
        obtain ⟨h1, h2⟩ := h
        subst h1 h2
        intro st hst
        rcases List.mem_cons.1 hst with h3 | h3
        · subst h3; exact hxs
        · exact hrest st h3
      | some r =>
        rw [hr] at h
        obtain ⟨y, rest2⟩ := r
        simp only at h
        split at h
        · simp only [Option.some.injEq, Prod.mk.injEq] at h
          obtain ⟨h1, h2⟩ := h
          subst h1 h2
          intro st hst
          rcases List.mem_cons.1 hst with h3 | h3
          · subst h3; exact hxs
          · exact hrest st h3
        · simp only [Option.some.injEq, Prod.mk.injEq] at h
          obtain ⟨h1, h2⟩ := h
          subst h1 h2
          intro st hst
          rcases List.mem_cons.1 hst with h3 | h3
          · subst h3; exact hc
          · exact ih y rest2 hr hrest st h3

theorem mergeKey_le_fst (replica : String) (x y : Series)
    (h : mergeKey replica x ≤ mergeKey replica y) :
    labelKey (stripReplica replica x.labels) ≤ labelKey (stripReplica replica y.labels) :=
  Prod.Lex.monotone_fst _ _ h

theorem strippedSorted_head_le (replica : String) (x : Series) (xs : List Series)
    (h : StrippedSorted replica (x :: xs)) :
    ∀ y ∈ x :: xs,
      labelKey (stripReplica replica x.labels) ≤ labelKey (stripReplica replica y.labels) := by
  intro y hy
  rcases List.mem_cons.1 hy with h1 | h1
  · subst h1; exact le_refl _
  · exact (List.pairwise_cons.1 h).1 y h1

theorem popMin_le (replica : String) (cursors : List (List Series)) (s : Series)
    (cursors2 : List (List Series)) (h : popMin replica cursors = some (s, cursors2))
    (hs : ∀ st ∈ cursors, StrippedSorted replica st) :
    ∀ y ∈ cursors.flatten,
      labelKey (stripReplica replica s.labels) ≤ labelKey (stripReplica replica y.labels) := by
  induction cursors generalizing s cursors2 with
  | nil => simp [popMin] at h
  | cons c rest ih =>
    have hrest : ∀ st ∈ rest, StrippedSorted replica st :=
      fun st hst => hs st (List.mem_cons_of_mem _ hst)
    have hc : StrippedSorted replica c := hs c (List.mem_cons_self _ _)
    cases c with
    | nil =>
      simp only [popMin] at h
      cases hr : popMin replica rest with
      | none => rw [hr] at h; cases h
      | some r =>
        rw [hr] at h
        obtain ⟨y, rest2⟩ := r
        simp only [Option.some.injEq, Prod.mk.injEq] at h
        obtain ⟨h1, h2⟩ := h
        subst h1 h2
        simpa using ih y rest2 hr hrest
    | cons x xs =>
      have hx := strippedSorted_head_le replica x xs hc
      simp only [popMin] at h
      cases hr : popMin replica rest with
      | none =>
        rw [hr] at h
        simp only [Option.some.injEq, Prod.mk.injEq] at h
        obtain ⟨h1, h2⟩ := h
        subst h1 h2
        intro y hy
        rw [List.flatten_cons, popMin_none replica rest hr, List.append_nil] at hy
        exact hx y hy
      | some r =>
        rw [hr] at h
        obtain ⟨y0, rest2⟩ := r
        have hy0 := ih y0 rest2 hr hrest
        simp only at h
        split at h
        · rename_i hle
          simp only [Option.some.injEq, Prod.mk.injEq] at h
          obtain ⟨h1, h2⟩ := h
          subst h1 h2
          intro y hy
          rw [List.flatten_cons] at hy
          rcases List.mem_append.1 hy with h3 | h3
          · exact hx y h3
          · exact le_trans (mergeKey_le_fst replica _ _ hle) (hy0 y h3)
        · rename_i hle
          simp only [Option.some.injEq, Prod.mk.injEq] at h
          obtain ⟨h1, h2⟩ := h
          subst h1 h2
          have hlt := le_of_lt (not_le.1 hle)
          intro y hy
          rw [List.flatten_cons] at hy
          rcases List.mem_append.1 hy with h3 | h3
          · exact le_trans (mergeKey_le_fst replica _ _ hlt) (hx y h3)
          · exact hy0 y h3

theorem labelMerge_perm (replica : String) (fuel : Nat) (cursors : List (List Series))
    (hfuel : totalLength cursors ≤ fuel) :
    (labelMerge replica fuel cursors).Perm cursors.flatten := by
  induction fuel generalizing cursors with
  | zero =>
    have h0 : cursors.flatten = [] := by
      have := totalLength_eq cursors
      have hl : cursors.flatten.length = 0 := by omega
      exact List.length_eq_zero.1 hl
    simp [labelMerge, h0]
  | succ n ih =>
    simp only [labelMerge]
    cases hp : popMin replica cursors with
    | none => simp [popMin_none replica cursors hp]
    | some r =>
      obtain ⟨s, cursors2⟩ := r
      have hperm := popMin_perm replica cursors s cursors2 hp
      have hlen : totalLength cursors2 ≤ n := by
        have h1 := hperm.length_eq
        rw [totalLength_eq] at hfuel ⊢
        simp only [List.length_cons] at h1
        omega
      exact (List.Perm.cons s (ih cursors2 hlen)).trans hperm

theorem labelMerge_spec (replica : String) (fuel : Nat) (cursors : List (List Series))
    (hfuel : totalLength cursors ≤ fuel) (hs : ∀ st ∈ cursors, StrippedSorted replica st) :
    (labelMerge replica fuel cursors).Perm cursors.flatten ∧
    StrippedSorted replica (labelMerge replica fuel cursors) := by
  induction fuel generalizing cursors with
  | zero =>
    have h0 : cursors.flatten = [] := by
      have := totalLength_eq cursors
      have hl : cursors.flatten.length = 0 := by omega
      exact List.length_eq_zero.1 hl
    simp [labelMerge, h0, StrippedSorted]
  | succ n ih =>
    simp only [labelMerge]
    cases hp : popMin replica cursors with
    | none => simp [popMin_none replica cursors hp, StrippedSorted]
    | some r =>
      obtain ⟨s, cursors2⟩ := r
      have hperm := popMin_perm replica cursors s cursors2 hp
      have hlen : totalLength cursors2 ≤ n := by
        have h1 := hperm.length_eq
        rw [totalLength_eq] at hfuel ⊢
        simp only [List.length_cons] at h1
        omega
      obtain ⟨ihp, ihs⟩ := ih cursors2 hlen (popMin_sorted replica cursors s cursors2 hp hs)
      refine ⟨(List.Perm.cons s ihp).trans hperm, ?_⟩
      simp only [StrippedSorted] at ihs ⊢
      refine List.pairwise_cons.2 ⟨?_, ihs⟩
      intro y hy
      have hy2 : y ∈ cursors.flatten :=
        hperm.subset (List.mem_cons_of_mem _ (ihp.subset hy))
      exact popMin_le replica cursors s cursors2 hp hs y hy2

theorem codes_injective : Function.Injective codes := by
  intro a b h
  apply String.ext
  have hinj : Function.Injective Char.toNat :=
    Function.LeftInverse.injective Char.ofNat_toNat
  exact List.map_injective_iff.2 hinj h

theorem labelKey_injective : Function.Injective labelKey := by
  intro a b h
  refine List.map_injective_iff.2 ?_ h
  intro p q hpq
  have h2 : (codes p.1, codes p.2) = (codes q.1, codes q.2) := toLex.injective hpq
  simp only [Prod.mk.injEq] at h2
  exact Prod.ext (codes_injective h2.1) (codes_injective h2.2)

theorem groupAdjacent_members (replica : String) (l : List Series) :
    (groupAdjacent replica l).flatMap Group.members = l ∧
    ∀ g ∈ groupAdjacent replica l,
      g.members ≠ [] ∧ ∀ s ∈ g.members, stripReplica replica s.labels = g.labels := by
  induction l with
  | nil => simp [groupAdjacent]
  | cons s rest ih =>
    obtain ⟨ih1, ih2⟩ := ih
    simp only [groupAdjacent]
    cases hg : groupAdjacent replica rest with
    | nil =>
      rw [hg] at ih1
      simp only [List.flatMap_nil] at ih1
      subst ih1
      simp
    | cons g gs =>
      rw [hg] at ih1 ih2
      simp only
      split
      · rename_i heq
        refine ⟨?_, ?_⟩
        · simp only [List.flatMap_cons, List.cons_append] at ih1 ⊢
          rw [ih1]
        · intro g2 hg2
          rcases List.mem_cons.1 hg2 with h3 | h3
          · subst h3
            refine ⟨by simp, ?_⟩
            intro m hm
            rcases List.mem_cons.1 hm with h4 | h4
            · subst h4; exact heq
            · exact (ih2 g (List.mem_cons_self _ _)).2 m h4
          · exact ih2 g2 (List.mem_cons_of_mem _ h3)
      · refine ⟨?_, ?_⟩
        · simp only [List.flatMap_cons, List.cons_append, List.nil_append] at ih1 ⊢
          rw [ih1]
        · intro g2 hg2
          rcases List.mem_cons.1 hg2 with h3 | h3
          · subst h3
            simp
          · exact ih2 g2 h3

theorem groupAdjacent_sorted (replica : String) (l : List Series)
    (hs : StrippedSorted replica l) :
    (groupAdjacent replica l).Pairwise fun g h => labelKey g.labels < labelKey h.labels := by
  induction l with
  | nil => simp [groupAdjacent]
  | cons s rest ih =>
    have hrest : StrippedSorted replica rest := (List.pairwise_cons.1 hs).2
    have hhead := (List.pairwise_cons.1 hs).1
    have ihs := ih hrest
    obtain ⟨hm1, hm2⟩ := groupAdjacent_members replica rest
    have hle : ∀ h ∈ groupAdjacent replica rest,
        labelKey (stripReplica replica s.labels) ≤ labelKey h.labels := by
      intro h hh
      obtain ⟨hne, hlab⟩ := hm2 h hh
      obtain ⟨m, hm⟩ := List.exists_mem_of_ne_nil _ hne
      have hmrest : m ∈ rest := by
        rw [← hm1]
        exact List.mem_flatMap.2 ⟨h, hh, hm⟩
      rw [← hlab m hm]
      exact hhead m hmrest
    simp only [groupAdjacent]
    cases hg : groupAdjacent replica rest with
    | nil => simp
    | cons g gs =>
      rw [hg] at ihs hle
      simp only
      split
      · rename_i heq
        exact List.pairwise_cons.2
          ⟨fun h hh => (List.pairwise_cons.1 ihs).1 h hh, (List.pairwise_cons.1 ihs).2⟩
      · rename_i hne
        refine List.pairwise_cons.2 ⟨?_, ihs⟩
        intro h hh
        have hgle := hle g (List.mem_cons_self _ _)
        have hglt : labelKey (stripReplica replica s.labels) < labelKey g.labels :=
          lt_of_le_of_ne hgle (fun he => hne (labelKey_injective he))
        rcases List.mem_cons.1 hh with h3 | h3
        · subst h3; exact hglt
        · exact lt_trans hglt ((List.pairwise_cons.1 ihs).1 h h3)

/-- C4, amended: for every set of input streams, each input series appears
exactly once in the output of the merge stage, as a member of the group
carrying its label set without the replica label, alone or together with its
replicas; and when every input stream is in order of the label set with the
replica label removed, the output is label-sorted: its groups come in strictly
increasing lexicographic order of that label set. -/
theorem merge_stage_sorted_complete (replica : String) (streams : List (List Series)) :
    ((mergeStage replica streams).flatMap Group.members).Perm streams.flatten ∧
    (∀ g ∈ mergeStage replica streams,
      g.members ≠ [] ∧ ∀ s ∈ g.members, stripReplica replica s.labels = g.labels) ∧
    ((∀ st ∈ streams, StrippedSorted replica st) →
      (mergeStage replica streams).Pairwise fun g h =>
        labelKey g.labels < labelKey h.labels) := by
  have hperm := labelMerge_perm replica (totalLength streams) streams (le_refl _)
  obtain ⟨hm1, hm2⟩ := groupAdjacent_members replica (mergeStreams replica streams)
  refine ⟨?_, hm2, ?_⟩
  · simp only [mergeStage]
    rw [hm1]
    exact hperm
  · intro hs
    exact groupAdjacent_sorted replica _
      (labelMerge_spec replica (totalLength streams) streams (le_refl _) hs).2

/-! ### Sample dedup -/

theorem skipPassed_subset (last : Option Int) (cs : List Chunk) :
    ∀ c ∈ skipPassed last cs, c ∈ cs := by
  induction cs with
  | nil => simp [skipPassed]
  | cons c rest ih =>
    intro d hd
    simp only [skipPassed] at hd
    split at hd
    · exact List.mem_cons_of_mem _ (ih d hd)
    · exact hd

theorem skipPassed_length (last : Option Int) (cs : List Chunk) :
    (skipPassed last cs).length ≤ cs.length := by
  induction cs with
  | nil => simp [skipPassed]
  | cons c rest ih =>
    simp only [skipPassed]
    split
    · simp only [List.length_cons]; omega
    · exact le_refl _

theorem totalChunks_cons (r : Series) (rs : List Series) :
    totalChunks (r :: rs) = r.chunks.length + totalChunks rs := by
  simp [totalChunks]

theorem totalChunks_skip (last : Option Int) (cursors : List Series) :
    totalChunks (cursors.map fun r => { r with chunks := skipPassed last r.chunks }) ≤
      totalChunks cursors := by
  induction cursors with
  | nil => simp [totalChunks]
  | cons r rs ih =>
    rw [List.map_cons, totalChunks_cons, totalChunks_cons]
    have := skipPassed_length last r.chunks
    simp only
    omega

theorem cursorStart_chunks (last : Option Int) (r : Series) (w : Int)
    (h : cursorStart last r = some w) :
    ∃ c cs, r.chunks = c :: cs := by
  cases hc : r.chunks with
  | nil => simp [cursorStart, hc] at h
  | cons c cs => exact ⟨c, cs, rfl⟩

theorem pickSegment_spec (prefer : Option LabelSet → Series → Series → Bool)
    (last : Option Int) (active : Option LabelSet) (w : Int) (cursors : List Series)
    (r : Series) (cursors2 : List Series)
    (h : pickSegment prefer last active w cursors = some (r, cursors2)) :
    r ∈ cursors ∧ cursorStart last r = some w ∧
    totalChunks cursors2 + 1 = totalChunks cursors ∧
    ∀ r2 ∈ cursors2, ∃ r0 ∈ cursors, ∀ c ∈ r2.chunks, c ∈ r0.chunks := by
  induction cursors generalizing r cursors2 with
  | nil => simp [pickSegment] at h
  | cons a rest ih =>
    have htake : cursorStart last a = some w →
        a ∈ a :: rest ∧ cursorStart last a = some w ∧
        totalChunks ({ a with chunks := a.chunks.tail } :: rest) + 1 = totalChunks (a :: rest) ∧
        ∀ r2 ∈ { a with chunks := a.chunks.tail } :: rest,
          ∃ r0 ∈ a :: rest, ∀ c ∈ r2.chunks, c ∈ r0.chunks := by
      intro hstart
      obtain ⟨c, cs, hc⟩ := cursorStart_chunks last a w hstart
      refine ⟨List.mem_cons_self _ _, hstart, ?_, ?_⟩
      · rw [totalChunks_cons, totalChunks_cons, hc]
        simp only [List.tail_cons, List.length_cons]
        omega
      · intro r2 hr2
        rcases List.mem_cons.1 hr2 with h3 | h3
        · subst h3
          exact ⟨a, List.mem_cons_self _ _, fun c hc2 => List.mem_of_mem_tail hc2⟩
        · exact ⟨r2, List.mem_cons_of_mem _ h3, fun c hc2 => hc2⟩
    simp only [pickSegment] at h
    cases hr : pickSegment prefer last active w rest with
    | none =>
      rw [hr] at h
      simp only at h
      split at h
      · rename_i hstart
        simp only [Option.some.injEq, Prod.mk.injEq] at h
        obtain ⟨h1, h2⟩ := h
        subst h1 h2
        exact htake hstart
      · cases h
    | some p =>
      rw [hr] at h
      obtain ⟨b, rest2⟩ := p
      simp only at h
      split at h
      · rename_i hstart
        simp only [Option.some.injEq, Prod.mk.injEq] at h
        obtain ⟨h1, h2⟩ := h
        subst h1 h2
        exact htake hstart.1
      · simp only [Option.some.injEq, Prod.mk.injEq] at h
        obtain ⟨h1, h2⟩ := h
        subst h1 h2
        obtain ⟨i1, i2, i3, i4⟩ := ih _ _ hr
        refine ⟨List.mem_cons_of_mem _ i1, i2, ?_, ?_⟩
        · rw [totalChunks_cons, totalChunks_cons]
          omega
        · intro r2 hr2
          rcases List.mem_cons.1 hr2 with h3 | h3
          · subst h3
            exact ⟨r2, List.mem_cons_self _ _, fun c hc2 => hc2⟩
          · obtain ⟨r0, hr0, hsub⟩ := i4 r2 h3
            exact ⟨r0, List.mem_cons_of_mem _ hr0, hsub⟩

theorem fresh_sorted (last : Option Int) (c : Chunk) (h : ChunkSorted c) :
    ChunkSorted (fresh last c) :=
  List.Pairwise.sublist (List.filter_sublist c) h

theorem fresh_after (last : Option Int) (c : Chunk) :
    ∀ s ∈ fresh last c, after last s.t = true ∧ s ∈ c := by
  intro s hs
  have := List.mem_filter.1 hs
  exact ⟨this.2, this.1⟩

theorem sorted_le_getLast (piece : Chunk) (z : Sample) (h : ChunkSorted piece)
    (hz : piece.getLast? = some z) : ∀ s ∈ piece, s.t ≤ z.t := by
  induction piece with
  | nil => simp at hz
  | cons a rest ih =>
    cases rest with
    | nil =>
      simp only [List.getLast?_singleton, Option.some.injEq] at hz
      subst hz
      simp
    | cons b rest2 =>
      have hz2 : (b :: rest2).getLast? = some z := by
        simpa [List.getLast?_cons_cons] using hz
      have hs2 : ChunkSorted (b :: rest2) := (List.pairwise_cons.1 h).2
      have hzmem : z ∈ b :: rest2 := List.mem_of_getLast?_eq_some hz2
      intro s hs
      rcases List.mem_cons.1 hs with h3 | h3
      · subst h3
        exact le_of_lt ((List.pairwise_cons.1 h).1 z hzmem)
      · exact ih hs2 hz2 s h3

theorem after_lastTime (last : Option Int) (piece : Chunk) (h : ChunkSorted piece)
    (hafter : ∀ s ∈ piece, after last s.t = true) (t : Int)
    (ht : after (lastTime last piece) t = true) :
    after last t = true ∧ ∀ s ∈ piece, s.t < t := by
  cases hl : piece.getLast? with
  | none =>
    have hnil : piece = [] := List.getLast?_eq_none_iff.1 hl
    subst hnil
    simp only [lastTime, List.getLast?_nil] at ht
    exact ⟨ht, by simp⟩
  | some z =>
    simp only [lastTime, hl, after, decide_eq_true_eq] at ht
    have hzmem : z ∈ piece := List.mem_of_getLast?_eq_some hl
    have hle := sorted_le_getLast piece z h hl
    refine ⟨?_, fun s hs => lt_of_le_of_lt (hle s hs) ht⟩
    have hz := hafter z hzmem
    cases last with
    | none => rfl
    | some l =>
      simp only [after, decide_eq_true_eq] at hz ⊢
      omega

theorem skip_cursors_spec (last : Option Int) (cursors : List Series) :
    ∀ r1 ∈ (cursors.map fun r => { r with chunks := skipPassed last r.chunks }),
      ∃ r0 ∈ cursors, ∀ c ∈ r1.chunks, c ∈ r0.chunks := by
  intro r1 hr1
  obtain ⟨r0, hr0, heq⟩ := List.mem_map.1 hr1
  subst heq
  exact ⟨r0, hr0, fun c hc => skipPassed_subset last r0.chunks c hc⟩

theorem dedupLoop_sorted (prefer : Option LabelSet → Series → Series → Bool) (fuel : Nat)
    (last : Option Int) (active : Option LabelSet) (cursors : List Series)
    (hs : ∀ r ∈ cursors, ∀ c ∈ r.chunks, ChunkSorted c) :
    ChunkSorted (dedupLoop prefer fuel last active cursors) ∧
    ∀ s ∈ dedupLoop prefer fuel last active cursors,
      after last s.t = true ∧ ∃ r ∈ cursors, ∃ c ∈ r.chunks, s ∈ c := by
  induction fuel generalizing last active cursors with
  | zero => simp [dedupLoop, ChunkSorted]
  | succ n ih =>
    simp only [dedupLoop]
    have hskip := skip_cursors_spec last cursors
    generalize (cursors.map fun r => { r with chunks := skipPassed last r.chunks }) = cursors1
      at hskip ⊢
    cases hw : windowStart last cursors1 with
    | none => simp [ChunkSorted]
    | some w =>
      simp only
      cases hp : pickSegment prefer last active w cursors1 with
      | none => simp [ChunkSorted]
      | some p =>
        obtain ⟨r, cursors2⟩ := p
        simp only
        obtain ⟨hmem, hstart, -, hsub⟩ :=
          pickSegment_spec prefer last active w cursors1 r cursors2 hp
        obtain ⟨c, cs, hc⟩ := cursorStart_chunks last r w hstart
        rw [hc]
        simp only [List.headD_cons]
        have horigin : ∀ r1 ∈ cursors1, ∀ d ∈ r1.chunks, ∃ r0 ∈ cursors, d ∈ r0.chunks := by
          intro r1 hr1 d hd
          obtain ⟨r0, hr0, hsub0⟩ := hskip r1 hr1
          exact ⟨r0, hr0, hsub0 d hd⟩
        have hcmem : c ∈ r.chunks := by rw [hc]; exact List.mem_cons_self _ _
        obtain ⟨rc, hrc, hcrc⟩ := horigin r hmem c hcmem
        have hcs : ChunkSorted c := hs rc hrc c hcrc
        have hpiece := fresh_sorted last c hcs
        have hpa := fresh_after last c
        have hs2 : ∀ r2 ∈ cursors2, ∀ d ∈ r2.chunks, ChunkSorted d := by
          intro r2 hr2 d hd
          obtain ⟨r1, hr1, hsub1⟩ := hsub r2 hr2
          obtain ⟨r0, hr0, hd0⟩ := horigin r1 hr1 d (hsub1 d hd)
          exact hs r0 hr0 d hd0
        obtain ⟨ih1, ih2⟩ := ih (lastTime last (fresh last c)) (some r.labels) cursors2 hs2
        refine ⟨?_, ?_⟩
        · refine List.pairwise_append.2 ⟨hpiece, ih1, fun a ha b hb => ?_⟩
          exact (after_lastTime last _ hpiece (fun s hs => (hpa s hs).1) b.t (ih2 b hb).1).2 a ha
        · intro s hsm
          rcases List.mem_append.1 hsm with h3 | h3
          · exact ⟨(hpa s h3).1, rc, hrc, c, hcrc, (hpa s h3).2⟩
          · obtain ⟨ha, r2, hr2, d, hd, hsd⟩ := ih2 s h3
            refine ⟨(after_lastTime last _ hpiece (fun s hs => (hpa s hs).1) s.t ha).1, ?_⟩
            obtain ⟨r1, hr1, hsub1⟩ := hsub r2 hr2
            obtain ⟨r0, hr0, hd0⟩ := horigin r1 hr1 d (hsub1 d hd)
            exact ⟨r0, hr0, d, hd0, hsd⟩

theorem windowStart_none (last : Option Int) (cursors : List Series)
    (h : totalChunks cursors = 0) : windowStart last cursors = none := by
  induction cursors with
  | nil => rfl
  | cons r rs ih =>
    rw [totalChunks_cons] at h
    have h1 : r.chunks = [] := List.length_eq_zero.1 (by omega)
    have h2 : windowStart last rs = none := ih (by omega)
    simp [windowStart, cursorStart, h1, h2]

theorem dedupLoop_fuel_succ (prefer : Option LabelSet → Series → Series → Bool) (fuel : Nat)
    (last : Option Int) (active : Option LabelSet) (cursors : List Series)
    (hfuel : totalChunks cursors ≤ fuel) :
    dedupLoop prefer (fuel + 1) last active cursors =
      dedupLoop prefer fuel last active cursors := by
  induction fuel generalizing last active cursors with
  | zero =>
    have hskip := totalChunks_skip last cursors
    have h0 : totalChunks (cursors.map fun r => { r with chunks := skipPassed last r.chunks })
        = 0 := by omega
    simp only [dedupLoop]
    rw [windowStart_none last _ h0]
  | succ n ih =>
    rw [dedupLoop]
    conv_rhs => rw [dedupLoop]
    have hskip := totalChunks_skip last cursors
    simp only
    generalize (cursors.map fun r => { r with chunks := skipPassed last r.chunks }) = cursors1
      at hskip ⊢
    cases hw : windowStart last cursors1 with
    | none => rfl
    | some w =>
      simp only
      cases hp : pickSegment prefer last active w cursors1 with
      | none => rfl
      | some p =>
        obtain ⟨r, cursors2⟩ := p
        simp only
        obtain ⟨-, -, hlen, -⟩ := pickSegment_spec prefer last active w cursors1 r cursors2 hp
        rw [ih _ _ cursors2 (by omega)]

theorem dedupLoop_fuel (prefer : Option LabelSet → Series → Series → Bool) (fuel k : Nat)
    (last : Option Int) (active : Option LabelSet) (cursors : List Series)
    (hfuel : totalChunks cursors ≤ fuel) :
    dedupLoop prefer (fuel + k) last active cursors =
      dedupLoop prefer fuel last active cursors := by
  induction k with
  | zero => rfl
  | succ j ih =>
    rw [← Nat.add_assoc, dedupLoop_fuel_succ prefer (fuel + j) last active cursors (by omega), ih]

/-- Witness for C4: three endpoint streams in order of the stripped label
set, two of them holding a replica of the same series. -/
theorem merge_stage_sorted_complete_witness :
    (∀ st ∈ [[scenarioX], [scenarioY], otherStream], StrippedSorted "replica" st) ∧
    ((mergeStage "replica" [[scenarioX], [scenarioY], otherStream]).Pairwise fun g h =>
      labelKey g.labels < labelKey h.labels) ∧
    ((mergeStage "replica" [[scenarioX], [scenarioY], otherStream]).flatMap
      Group.members).Perm [[scenarioX], [scenarioY], otherStream].flatten ∧
    (∀ g ∈ mergeStage "replica" [[scenarioX], [scenarioY], otherStream],
      g.members ≠ [] ∧ ∀ s ∈ g.members, stripReplica "replica" s.labels = g.labels) :=
  ⟨by decide,
   (merge_stage_sorted_complete "replica" [[scenarioX], [scenarioY], otherStream]).2.2
     (by decide),
   (merge_stage_sorted_complete "replica" [[scenarioX], [scenarioY], otherStream]).1,
   (merge_stage_sorted_complete "replica" [[scenarioX], [scenarioY], otherStream]).2.1⟩

/-- Counterexample to C4 as stated: two endpoint streams, each strictly
ordered by its label sets, for which the output of the merge stage is not
label-sorted. The output carries the label sets `a=1`, then `a=1,b=2`, then
`a=1` again, so the two replicas of `a=1` are not brought together either. -/
theorem merge_stage_label_sorted_counterexample :
    (∀ st ∈ [fullOrderStream, replicaStream], LabelSorted st) ∧
    (mergeStage "replica" [fullOrderStream, replicaStream]).map Group.labels =
      [[("a", "1")], [("a", "1"), ("b", "2")], [("a", "1")]] ∧
    ¬ ((mergeStage "replica" [fullOrderStream, replicaStream]).Pairwise fun g h =>
      labelKey g.labels ≤ labelKey h.labels) := by
  decide

/-- The merge stage on the three streams of the witness: the two replicas of
`job="x"` form one group, between the series `job="w"` and `job="y"`. -/
theorem mergeStage_example :
    mergeStage "replica" [[scenarioX], [scenarioY], otherStream] =
      [{ labels := [("job", "w")],
         members := [{ labels := [("job", "w")], chunks := [[{ t := 5, v := 7 }]] }] },
       { labels := [("job", "x")], members := [scenarioX, scenarioY] },
       { labels := [("job", "y")],
         members := [{ labels := [("job", "y"), ("replica", "a")], chunks := [] }] }] := by
  decide

/-- C5: deduplicating two replicas of one logical series yields a single
series, labelled with the common stripped label set, whose timestamps are
strictly increasing (so nothing regresses or repeats where the replicas
overlap) and whose samples all come from one of the two replicas; the fuel of
the walk is enough. In Scenario A the engine returns the one series
`job="x"` with samples (0,1), (10,2), (20,3), (30,4), whatever comparator is
plugged in. -/
theorem dedup_overlapping_replicas (prefer : Option LabelSet → Series → Series → Bool)
    (ls : LabelSet) (x y : Series)
    (hx : ∀ c ∈ x.chunks, ChunkSorted c) (hy : ∀ c ∈ y.chunks, ChunkSorted c) :
    (dedupGroup prefer { labels := ls, members := [x, y] }).1 = ls ∧
    ((dedupGroup prefer { labels := ls, members := [x, y] }).2.Pairwise fun a b =>
      a.t < b.t) ∧
    (∀ s ∈ (dedupGroup prefer { labels := ls, members := [x, y] }).2,
      (∃ c ∈ x.chunks, s ∈ c) ∨ (∃ c ∈ y.chunks, s ∈ c)) ∧
    (∀ k, dedupLoop prefer (totalChunks [x, y] + k) none none [x, y] =
      (dedupGroup prefer { labels := ls, members := [x, y] }).2) ∧
    mergeAndDedup "replica" prefer [[scenarioX], [scenarioY]] =
      [([("job", "x")],
        [{ t := 0, v := 1 }, { t := 10, v := 2 }, { t := 20, v := 3 }, { t := 30, v := 4 }])] := by
  have hs : ∀ r ∈ [x, y], ∀ c ∈ r.chunks, ChunkSorted c := by
    intro r hr c hc
    rcases List.mem_cons.1 hr with h1 | h1
    · subst h1; exact hx c hc
    · rcases List.mem_cons.1 h1 with h2 | h2
      · subst h2; exact hy c hc
      · cases h2
  obtain ⟨h1, h2⟩ := dedupLoop_sorted prefer (totalChunks [x, y]) none none [x, y] hs
  refine ⟨rfl, h1, ?_, ?_, rfl⟩
  · intro s hsm
    obtain ⟨-, r, hr, c, hc, hsc⟩ := h2 s hsm
    rcases List.mem_cons.1 hr with h3 | h3
    · subst h3; exact Or.inl ⟨c, hc, hsc⟩
    · rcases List.mem_cons.1 h3 with h4 | h4
      · subst h4; exact Or.inr ⟨c, hc, hsc⟩
      · cases h4
  · intro k
    exact dedupLoop_fuel prefer (totalChunks [x, y]) k none none [x, y] (le_refl _)

/-- Witness for C5: the two replicas of Scenario A under the comparator that
prefers the active replica. -/
theorem dedup_overlapping_replicas_witness :
    (∀ c ∈ scenarioX.chunks, ChunkSorted c) ∧ (∀ c ∈ scenarioY.chunks, ChunkSorted c) ∧
    (dedupGroup (preferActive "replica")
      { labels := [("job", "x")], members := [scenarioX, scenarioY] }).1 = [("job", "x")] ∧
    ((dedupGroup (preferActive "replica")
      { labels := [("job", "x")], members := [scenarioX, scenarioY] }).2.Pairwise fun a b =>
      a.t < b.t) ∧
    (∀ s ∈ (dedupGroup (preferActive "replica")
        { labels := [("job", "x")], members := [scenarioX, scenarioY] }).2,
      (∃ c ∈ scenarioX.chunks, s ∈ c) ∨ (∃ c ∈ scenarioY.chunks, s ∈ c)) ∧
    (∀ k, dedupLoop (preferActive "replica") (totalChunks [scenarioX, scenarioY] + k)
        none none [scenarioX, scenarioY] =
      (dedupGroup (preferActive "replica")
        { labels := [("job", "x")], members := [scenarioX, scenarioY] }).2) ∧
    mergeAndDedup "replica" (preferActive "replica") [[scenarioX], [scenarioY]] =
      [([("job", "x")],
        [{ t := 0, v := 1 }, { t := 10, v := 2 }, { t := 20, v := 3 }, { t := 30, v := 4 }])] :=
  ⟨by decide, by decide,
   dedup_overlapping_replicas (preferActive "replica") [("job", "x")] scenarioX scenarioY
     (by decide) (by decide)⟩

end Promlts
